import Mathlib

/-!
Shallow embedding, over the rationals, of the numerical core of the two
services of the repository:

  * src/fractionalization-pricing-service/app.py
      (pv_price, implied_yield_for_price, calculate_fraction_price)
  * src/recommendations-service/app.py
      (get_asset_risk_score, compute_portfolio_risk, select_bond_candidate,
       the trigger rules of build_recommendations, BOND_UNIVERSE, demo data)

Python floats are modelled as exact rationals; Python round(x, nd) is
modelled as exact round-half-to-even at nd decimal digits; Python None is
modelled by Option.  Python list.sort(key, reverse=True) is a stable
descending sort, modelled by a stable descending insertion sort.
-/

namespace BondMarket

/-! ## Rating categories (pricing service, lines 9-10) -/

def HIGH_RATED : List String :=
  ["AAA", "AA+", "AA", "AA-", "A+", "A", "A-", "BBB+", "BBB"]

def LOW_RATED : List String :=
  ["BBB-", "BB+", "BB", "BB-", "B+", "B", "B-", "CCC", "CC", "C", "D"]

/-! ## Python round, modelled exactly on rationals -/

/-- Round a rational to the nearest integer, ties to even
(the rounding rule of Python round). -/
def pyRoundInt (q : ℚ) : ℤ :=
  let f := ⌊q⌋
  let r := q - f
  if r < 1/2 then f
  else if 1/2 < r then f + 1
  else if f % 2 = 0 then f else f + 1

/-- Python round(q, nd) on rationals. -/
def pyRound (nd : ℕ) (q : ℚ) : ℚ :=
  (pyRoundInt (q * 10 ^ nd) : ℚ) / 10 ^ nd

/-! ## PV Pricer (pricing service, pv_price, lines 15-32) -/

/-- Present value with an explicit natural number of periods: the body of
pv_price after the period count n has been computed. -/
def pvAux (face_value coupon_rate yield_rate : ℚ) (n : ℕ) : ℚ :=
  let c := face_value * coupon_rate
  let y := yield_rate
  if n = 0 then
    face_value + c
  else
    ((List.range n).map (fun t => c / (1 + y) ^ (t + 1))).sum
      + face_value / (1 + y) ^ n

/-- pv_price: PV of all coupons plus PV of face value.
Periods n = max(ceil(years), 0), as in the source. -/
def pv_price (face_value coupon_rate yield_rate years : ℚ) : ℚ :=
  pvAux face_value coupon_rate yield_rate (max ⌈years⌉ 0).toNat

/-! ## Yield Solver (implied_yield_for_price, lines 35-61) -/

/-- The bisection loop of implied_yield_for_price.  The source carries fb
alongside fa but never reads it inside the loop, so only fa is carried
here.  When fuel runs out the final bracket midpoint is returned. -/
def bisectLoop (face_value coupon_rate price years eps : ℚ) :
    ℕ → ℚ → ℚ → ℚ → ℚ
  | 0, a, b, _ => 0.5 * (a + b)
  | fuel + 1, a, b, fa =>
    let m := 0.5 * (a + b)
    let fm := pv_price face_value coupon_rate m years - price
    if |fm| < eps then m
    else if fa * fm ≤ 0 then
      bisectLoop face_value coupon_rate price years eps fuel a m fa
    else
      bisectLoop face_value coupon_rate price years eps fuel m b fm

/-- implied_yield_for_price: bisection solve of pv_price(y) = price on
[lo, hi], with one widening of hi to 10.0 when the root is not bracketed;
returns none when still unbracketed afterwards. -/
def implied_yield_for_price (face_value coupon_rate price years : ℚ)
    (lo hi eps : ℚ) (max_iter : ℕ) : Option ℚ :=
  let fa := pv_price face_value coupon_rate lo years - price
  let fb := pv_price face_value coupon_rate hi years - price
  if fa * fb > 0 then
    let b := (10.0 : ℚ)
    let fb2 := pv_price face_value coupon_rate b years - price
    if fa * fb2 > 0 then none
    else some (bisectLoop face_value coupon_rate price years eps max_iter lo b fa)
  else
    some (bisectLoop face_value coupon_rate price years eps max_iter lo hi fa)

/-- Default lo of implied_yield_for_price. -/
def defaultLo : ℚ := 1e-8

/-- Default hi of implied_yield_for_price. -/
def defaultHi : ℚ := 1.0

/-- Default eps of implied_yield_for_price. -/
def defaultEps : ℚ := 1e-8

/-- Default max_iter of implied_yield_for_price. -/
def defaultMaxIter : ℕ := 200

/-! ## Fraction Pricing Engine (calculate_fraction_price, lines 66-159) -/

/-- target_yield_for_time, the inner helper of calculate_fraction_price. -/
def target_yield_for_time (coupon_rate t : ℚ) : ℚ :=
  let delta := (0.01 : ℚ)
  let t_capped := min (max t 0.0) 5.0
  coupon_rate - delta * (t_capped / 5.0)

/-- The local variables set by the branch dispatch of
calculate_fraction_price (lines 90-133): seller_total, fraction_price,
buyer_cost, buyer_yield and Y, before the output dict is assembled.
buyer_yield and Y are Option: Python None is none. -/
structure CoreState where
  seller_total : ℚ
  fraction_price : ℚ
  buyer_cost : ℚ
  buyer_yield : Option ℚ
  Y : Option ℚ
deriving DecidableEq

/-- Branch dispatch of calculate_fraction_price: by rating class, then by
the mode flags (high-rated only).  Mirrors lines 90-133 of the source. -/
def calcBranch (face_value coupon_rate : ℚ) (rating : String)
    (maturity_years fractions : ℚ)
    (use_pv_forward force_seller_target : Bool) : CoreState :=
  let fv_per_unit := face_value / fractions
  if rating ∈ HIGH_RATED then
    if use_pv_forward && !force_seller_target then
      let Y := target_yield_for_time coupon_rate maturity_years
      let seller_total := pv_price face_value coupon_rate Y maturity_years
      let fraction_price := pyRound 2 (seller_total / fractions)
      let buyer_cost := fraction_price * fractions
      let buyer_yield := (coupon_rate * face_value / buyer_cost) * 100
      ⟨seller_total, fraction_price, buyer_cost, some buyer_yield, some Y⟩
    else if force_seller_target then
      let base_recovery := face_value * (1 + coupon_rate)
      let time_scale := 0.95 + 0.07 * (min (max maturity_years 0.0) 5.0 / 5.0)
      let seller_total := base_recovery * time_scale
      let fraction_price := pyRound 2 (seller_total / fractions)
      let buyer_cost := fraction_price * fractions
      let implied := implied_yield_for_price face_value coupon_rate seller_total
        maturity_years defaultLo defaultHi defaultEps defaultMaxIter
      let buyer_yield := implied.map (fun v => v * 100)
      ⟨seller_total, fraction_price, buyer_cost, buyer_yield, implied⟩
    else
      let seller_total := face_value * (1 + coupon_rate) * 0.98
      let fraction_price := pyRound 2 (seller_total / fractions)
      let buyer_cost := fraction_price * fractions
      let buyer_yield := (coupon_rate * face_value / buyer_cost) * 100
      ⟨seller_total, fraction_price, buyer_cost, some buyer_yield, none⟩
  else if rating ∈ LOW_RATED then
    let seller_effective_rate := coupon_rate * 0.75
    let seller_total := face_value * (1 + seller_effective_rate)
    let fraction_price := pyRound 2 (seller_total / fractions)
    let buyer_cost := fraction_price * fractions
    let buyer_yield := (coupon_rate * face_value / buyer_cost) * 100
    ⟨seller_total, fraction_price, buyer_cost, some buyer_yield, none⟩
  else
    let fraction_price := fv_per_unit
    let seller_total := fraction_price * fractions
    let buyer_cost := seller_total
    let buyer_yield := coupon_rate * 100
    ⟨seller_total, fraction_price, buyer_cost, some buyer_yield, none⟩

/-- One interest projection entry of calculate_fraction_price (proj). -/
structure PricingProjection where
  absolute_interest : ℚ
  return_pct_of_cost : ℚ
deriving DecidableEq

/-- proj, the inner helper of calculate_fraction_price: interest
projection over a holding horizon.  The if on buyer_cost is the Python
truthiness test on it. -/
def projFor (face_value coupon_rate maturity_years buyer_cost years : ℚ) :
    PricingProjection :=
  let held_years := min years (max maturity_years 0)
  let interest_amt := coupon_rate * face_value * held_years
  ⟨pyRound 2 interest_amt,
   if buyer_cost ≠ 0 then pyRound 2 ((interest_amt / buyer_cost) * 100) else 0⟩

/-- The output dict of calculate_fraction_price (lines 150-159).
buyer_expected_yield_pct and used_yield are none exactly when the Python
conditional expressions evaluate their condition as falsy, i.e. when the
underlying value is None or equal to 0. -/
structure PricingResult where
  fraction_price : ℚ
  seller_total : ℚ
  buyer_expected_yield_pct : Option ℚ
  proj_1_year : PricingProjection
  proj_3_year : PricingProjection
  proj_5_year : PricingProjection
  pricing_mode : String
  used_yield : Option ℚ
deriving DecidableEq

/-- calculate_fraction_price: branch dispatch then assembly of the result
dict, mirroring lines 66-159 of the source.  purchase_amount is accepted
and unused, as in the source. -/
def calculate_fraction_price (face_value coupon_rate : ℚ) (rating : String)
    (purchase_amount maturity_years fractions : ℚ)
    (use_pv_forward force_seller_target : Bool) : PricingResult :=
  let s := calcBranch face_value coupon_rate rating maturity_years fractions
    use_pv_forward force_seller_target
  { fraction_price := s.fraction_price
    seller_total := pyRound 2 s.seller_total
    buyer_expected_yield_pct :=
      match s.buyer_yield with
      | some v => if v ≠ 0 then some (pyRound 2 v) else none
      | none => none
    proj_1_year := projFor face_value coupon_rate maturity_years s.buyer_cost 1
    proj_3_year := projFor face_value coupon_rate maturity_years s.buyer_cost 3
    proj_5_year := projFor face_value coupon_rate maturity_years s.buyer_cost 5
    pricing_mode :=
      if use_pv_forward && !force_seller_target then "pv_forward"
      else if force_seller_target then "force_seller"
      else "fallback"
    used_yield :=
      match s.Y with
      | some v => if v ≠ 0 then some (pyRound 6 v) else none
      | none => none }

/-! ## Recommendations service: data (app.py lines 24-63) -/

/-- A bond of the demo universe.  yield, duration, credit and the ids are
always accessed with [] in the source; liquidity is accessed with
.get("liquidity", 0.5), hence Option. -/
structure Bond where
  bond_id : String
  name : String
  credit : String
  yield : ℚ
  duration : ℚ
  liquidity : Option ℚ
deriving DecidableEq

/-- BOND_UNIVERSE, the fixed demo universe. -/
def BOND_UNIVERSE : List Bond :=
  [⟨"B_SAFE_1", "Gilt 3Y", "AAA", 0.055, 3, some 0.95⟩,
   ⟨"B_SAFE_2", "InvGrade Corp 3Y", "AA", 0.06, 3, some 0.9⟩,
   ⟨"B_MED_1", "Corp BBB 5Y", "BBB", 0.075, 5, some 0.7⟩,
   ⟨"B_HY_1", "HighYield 4Y", "BB", 0.10, 4, some 0.5⟩,
   ⟨"B_SHORT_SAFE", "T-Bill 1Y", "AAA", 0.045, 1, some 0.98⟩]

/-- CREDIT_RISK_MAP as an association list (lower = safer). -/
def CREDIT_RISK_MAP : List (String × ℚ) :=
  [("AAA", 0.0), ("AA", 0.1), ("A", 0.25), ("BBB", 0.5), ("BB", 0.8), ("B", 0.95)]

/-- RISK_MAP as an association list (0 safest - 1 riskiest). -/
def RISK_MAP : List (String × ℚ) :=
  [("high", 1.0), ("medium-high", 0.75), ("medium", 0.5), ("low", 0.2)]

/-- A portfolio asset.  Fields read with dict.get in the source are
Option; asset_id is kept total (it is read with [] where it matters). -/
structure Asset where
  asset_id : String
  type : Option String
  name : Option String
  risk_label : Option String
  market_value : Option ℚ
  expected_return : Option ℚ
  cagr : Option ℚ
  fd_rate : Option ℚ
deriving DecidableEq

/-- Effective market value of an asset: a.get("market_value", 0.0). -/
def mvOf (a : Asset) : ℚ := a.market_value.getD 0

/-- demo_portfolio, the default demo portfolio. -/
def demo_portfolio : List Asset :=
  [⟨"S_HIGH", some "stock", some "AlphaTech", some "high", some 40000, some 0.20, none, none⟩,
   ⟨"S_MED", some "stock", some "BetaIndustries", some "medium", some 30000, some 0.12, none, none⟩,
   ⟨"S_LOW", some "stock", some "GammaStable", some "low", some 15000, some 0.06, none, none⟩,
   ⟨"MF_GOOD", some "mutual_fund", some "GrowthPlus MF", some "medium", some 10000, none, some 0.15, none⟩,
   ⟨"MF_LOW", some "mutual_fund", some "ValueCore MF", some "medium-high", some 5000, none, some 0.03, none⟩,
   ⟨"FD_1", some "bank_fd", some "BankFD (7% p.a.)", some "low", some 20000, none, none, some 0.07⟩]

/-! ## Risk Scorer (lines 66-107) -/

/-- get_asset_risk_score: label lookup with default 0.5, stock adjustment,
bank_fd override.  RISK_MAP.get(a.get("risk_label"), 0.5) yields the
default both for a missing label and for an unrecognized one. -/
def get_asset_risk_score (a : Asset) : ℚ :=
  let base := (a.risk_label.bind (fun l => RISK_MAP.lookup l)).getD 0.5
  let asset_type := a.type.getD "other"
  let base := if asset_type = "stock" then min 1.0 (base + 0.1) else base
  let base := if asset_type = "bank_fd" then (0.05 : ℚ) else base
  base

/-- One entry of the per-asset breakdown of compute_portfolio_risk. -/
structure BreakdownEntry where
  asset_id : String
  type : Option String
  market_value : ℚ
  alloc_pct : ℚ
  risk_score_raw : ℚ
  risk_contribution : ℚ
deriving DecidableEq

/-- compute_portfolio_risk: (overall score, breakdown, total_value).
Python total = sum(...) or 1.0 is the truthiness fallback: 1.0 exactly
when the sum is 0.  The source accumulates the breakdown list and the
weighted sum in one loop; here the list is built by map and the weighted
sum is the sum of its risk_contribution column, which is the same fold. -/
def compute_portfolio_risk (assets : List Asset) :
    ℚ × List BreakdownEntry × ℚ :=
  let s := (assets.map mvOf).sum
  let total_value := if s = 0 then (1.0 : ℚ) else s
  let breakdown := assets.map (fun a =>
    let mv := mvOf a
    let alloc := mv / total_value
    let score := get_asset_risk_score a
    (⟨a.asset_id, a.type, mv, alloc, score, alloc * score⟩ : BreakdownEntry))
  let weighted_sum := (breakdown.map (fun e => e.risk_contribution)).sum
  (weighted_sum * 100.0, breakdown, total_value)

/-! ## Bond Selector (select_bond_candidate, lines 113-155) -/

/-- Credit filter of select_bond_candidate, keyed on desired_safety. -/
def filterBySafety (bond_universe : List Bond) (desired_safety : String) :
    List Bond :=
  if desired_safety = "safe" then
    bond_universe.filter (fun b => ["AAA", "AA", "A"].contains b.credit)
  else if desired_safety = "medium" then
    bond_universe.filter (fun b => ["AAA", "AA", "A", "BBB"].contains b.credit)
  else
    bond_universe

/-- Minimum of the yields of a bond list (min(yds) in the source; the
source raises on an empty list, cases on which never reach it). -/
def yMinOf : List Bond → ℚ
  | [] => 0
  | b0 :: rest => ((b0 :: rest).map (fun b => b.yield)).foldl min b0.yield

/-- Maximum of the yields of a bond list (max(yds) in the source). -/
def yMaxOf : List Bond → ℚ
  | [] => 0
  | b0 :: rest => ((b0 :: rest).map (fun b => b.yield)).foldl max b0.yield

/-- Utility score of one candidate, given the yield range of the filtered
universe (lines 134-152). -/
def utility (prefer_yield : Bool) (target_duration y_min y_max : ℚ)
    (b : Bond) : ℚ :=
  let norm_yield := (b.yield - y_min) / ((y_max - y_min) + 1e-9)
  let duration_penalty := |b.duration - target_duration| / 10.0
  let w_yield : ℚ := if prefer_yield then 0.5 else 0.35
  let w_credit : ℚ := if prefer_yield then 0.4 else 0.45
  let w_dur : ℚ := if prefer_yield then 0.05 else 0.1
  let w_liq : ℚ := if prefer_yield then 0.05 else 0.1
  let credit_risk := (CREDIT_RISK_MAP.lookup b.credit).getD 0.6
  w_yield * norm_yield - w_credit * credit_risk
    - w_dur * duration_penalty + w_liq * (b.liquidity.getD 0.5)

/-- Insert a later element into an already processed prefix, keeping a
descending order and placing it after every element whose key is not
smaller: the insertion step of a stable descending sort. -/
def insertDesc (key : Bond → ℚ) (x : Bond) : List Bond → List Bond
  | [] => [x]
  | y :: ys => if key y < key x then x :: y :: ys else y :: insertDesc key x ys

/-- Stable descending sort by key: the model of Python
candidate_scores.sort(key=lambda x: x[0], reverse=True). -/
def sortDesc (key : Bond → ℚ) (l : List Bond) : List Bond :=
  l.foldl (fun acc x => insertDesc key x acc) []

/-- The list df actually scored by select_bond_candidate: the credit
filter, falling back to the full universe when the filter is empty
(lines 118-128). -/
def dfOf (bond_universe : List Bond) (desired_safety : String) : List Bond :=
  let df0 := filterBySafety bond_universe desired_safety
  if df0.isEmpty then bond_universe else df0

/-- select_bond_candidate: credit filter, fallback to the full universe
when the filter is empty, utility scoring, stable descending sort, first
element.  Returns none only when the list to be scored is empty, where
the source raises on min() of an empty sequence. -/
def select_bond_candidate (bond_universe : List Bond)
    (desired_safety : String) (prefer_yield : Bool) (target_duration : ℚ) :
    Option Bond :=
  let df := dfOf bond_universe desired_safety
  let y_min := yMinOf df
  let y_max := yMaxOf df
  let key := utility prefer_yield target_duration y_min y_max
  (sortDesc key df).head?

/-- Specification-side description of the selection rule: the first
element of the list attaining the maximal key (earliest index wins ties,
since only a strictly larger key replaces the running best). -/
def firstMaxBy (key : Bond → ℚ) : List Bond → Option Bond
  | [] => none
  | x :: xs => some (xs.foldl (fun best b => if key best < key b then b else best) x)

/-! ## Recommendation Builder triggers (build_recommendations, lines 169-187) -/

/-- The to_replace entries contributed by one asset in the first loop of
build_recommendations: (asset_id, market_value, reason) triples, in the
order the three independent if statements append them. -/
def triggersFor (bond_universe : List Bond) (a : Asset) :
    List (String × ℚ × String) :=
  (if a.type = some "stock" ∧
      (a.risk_label = some "high" ∨ a.risk_label = some "medium-high") then
    [(a.asset_id, mvOf a, "stock_high")]
  else []) ++
  (if a.type = some "mutual_fund" ∧ a.cagr.getD 0 < 0.06 then
    [(a.asset_id, mvOf a, "mf_lowcagr")]
  else []) ++
  (if a.type = some "bank_fd" then
    let fd_rate := a.fd_rate.getD 0
    let safe_bonds := bond_universe.filter
      (fun b => b.credit = "AAA" || b.credit = "AA")
    let better := safe_bonds.filter (fun b => fd_rate ≤ b.yield)
    if better.isEmpty then [(a.asset_id, mvOf a, "fd_suggest_ladder")]
    else [(a.asset_id, mvOf a, "fd_replace")]
  else [])

/-- The full to_replace list of build_recommendations. -/
def to_replace (assets : List Asset) (bond_universe : List Bond) :
    List (String × ℚ × String) :=
  assets.flatMap (triggersFor bond_universe)

/-! # Theorems -/

/-! ## Claim C1: pricing_mode versus the seller_total branch logic -/

/-- Ratings never lie in both classification lists. -/
lemma not_high_of_low {rating : String} (h : rating ∈ LOW_RATED) :
    rating ∉ HIGH_RATED := by
  simp only [LOW_RATED, List.mem_cons, List.not_mem_nil, or_false] at h
  rcases h with rfl | rfl | rfl | rfl | rfl | rfl | rfl | rfl | rfl | rfl | rfl <;>
    simp [HIGH_RATED]

/-- Claim C1, counterexample: for the low-rated rating CCC the
pricing_mode of the result still varies with the flags (pv_forward
versus fallback), so it is not determined by the branch that computed
seller_total, which for CCC ignores the flags. -/
theorem c1_counterexample :
    (calculate_fraction_price 100 0.1 "CCC" 0 1 100 true false).pricing_mode ≠
      (calculate_fraction_price 100 0.1 "CCC" 0 1 100 false false).pricing_mode := by
  have h1 : (calculate_fraction_price 100 0.1 "CCC" 0 1 100 true false).pricing_mode
      = "pv_forward" := rfl
  have h2 : (calculate_fraction_price 100 0.1 "CCC" 0 1 100 false false).pricing_mode
      = "fallback" := rfl
  rw [h1, h2]
  decide

/-- Claim C1, amended: pricing_mode is computed from the two mode flags
alone, by the fixed formula, for every rating; for high-rated ratings
this coincides with the branch that computed seller_total, and for
low-rated ratings the branch outputs themselves are flag-independent
(only the echoed pricing_mode varies with the flags). -/
theorem c1_pricing_mode_amended (F c : ℚ) (rating : String) (pa t fr : ℚ)
    (upv fs : Bool) :
    (calculate_fraction_price F c rating pa t fr upv fs).pricing_mode =
      (if upv && !fs then "pv_forward"
       else if fs then "force_seller" else "fallback") ∧
    (rating ∈ HIGH_RATED →
      (calcBranch F c rating t fr upv fs).seller_total =
        (if upv && !fs then pv_price F c (target_yield_for_time c t) t
         else if fs then F * (1 + c) * (0.95 + 0.07 * (min (max t 0.0) 5.0 / 5.0))
         else F * (1 + c) * 0.98)) ∧
    (rating ∈ LOW_RATED → ∀ upv2 fs2 : Bool,
      calcBranch F c rating t fr upv fs = calcBranch F c rating t fr upv2 fs2) := by
  refine ⟨rfl, ?_, ?_⟩
  · intro hhigh
    simp only [calcBranch, if_pos hhigh]
    cases upv <;> cases fs <;> simp
  · intro hlow upv2 fs2
    simp only [calcBranch, if_neg (not_high_of_low hlow), if_pos hlow]

/-- Witness for the amended C1 theorem at concrete inputs, discharging
the high-rated hypothesis at AAA and the low-rated one at CCC. -/
theorem c1_pricing_mode_amended_witness :
    ((calcBranch 1000 0.08 "AAA" 3 100 true false).seller_total =
      pv_price 1000 0.08 (target_yield_for_time 0.08 3) 3) ∧
    (calcBranch 100 0.1 "CCC" 1 100 true false =
      calcBranch 100 0.1 "CCC" 1 100 false true) := by
  constructor
  · have h := (c1_pricing_mode_amended 1000 0.08 "AAA" 0 3 100 true false).2.1
      (by simp [HIGH_RATED])
    simpa using h
  · exact (c1_pricing_mode_amended 100 0.1 "CCC" 0 1 100 true false).2.2
      (by simp [LOW_RATED]) false true

/-! ## Claim C2: rounding of fraction_price in every branch -/

/-- Claim C2, counterexample: in the unclassified-rating branch the
fraction price is face_value/fractions un-rounded, so it can differ from
round(seller_total/fractions, 2). -/
theorem c2_counterexample :
    (calculate_fraction_price 1000 0.1 "ZZZ" 0 1 3 true false).fraction_price ≠
      pyRound 2
        ((calculate_fraction_price 1000 0.1 "ZZZ" 0 1 3 true false).seller_total / 3) := by
  simp [calculate_fraction_price, calcBranch, HIGH_RATED, LOW_RATED]
  norm_num [pyRound, pyRoundInt]

/-- Claim C2, amended: in the high-rated and low-rated branches the
fraction price is round(seller_total/fractions, 2); in the
unclassified-rating branch it is face_value/fractions un-rounded, and
seller_total is re-derived from it. -/
theorem c2_fraction_price_amended (F c : ℚ) (rating : String) (t fr : ℚ)
    (upv fs : Bool) :
    ((rating ∈ HIGH_RATED ∨ rating ∈ LOW_RATED) →
      (calcBranch F c rating t fr upv fs).fraction_price =
        pyRound 2 ((calcBranch F c rating t fr upv fs).seller_total / fr)) ∧
    (rating ∉ HIGH_RATED → rating ∉ LOW_RATED →
      (calcBranch F c rating t fr upv fs).fraction_price = F / fr ∧
      (calcBranch F c rating t fr upv fs).seller_total = F / fr * fr) := by
  constructor
  · rintro (hhigh | hlow)
    · simp only [calcBranch, if_pos hhigh]
      cases upv <;> cases fs <;> simp
    · simp only [calcBranch, if_neg (not_high_of_low hlow), if_pos hlow]
  · intro h1 h2
    constructor <;> simp [calcBranch, if_neg h1, if_neg h2]

/-- Witness for the amended C2 theorem, discharging the rated hypothesis
at AAA and the unclassified one at ZZZ. -/
theorem c2_fraction_price_amended_witness :
    ((calcBranch 1000 0.1 "AAA" 1 100 true false).fraction_price =
      pyRound 2 ((calcBranch 1000 0.1 "AAA" 1 100 true false).seller_total / 100)) ∧
    (calcBranch 1000 0.1 "ZZZ" 1 3 true false).fraction_price = 1000 / 3 := by
  constructor
  · exact (c2_fraction_price_amended 1000 0.1 "AAA" 1 100 true false).1
      (Or.inl (by simp [HIGH_RATED]))
  · exact ((c2_fraction_price_amended 1000 0.1 "ZZZ" 1 3 true false).2
      (by simp [HIGH_RATED]) (by simp [LOW_RATED])).1

/-! ## Claim C9: PV Pricer identities -/

/-- Integer years pass through the ceiling unchanged. -/
lemma pv_price_natCast (F c y : ℚ) (n : ℕ) :
    pv_price F c y (n : ℚ) = pvAux F c y n := by
  unfold pv_price
  rw [Int.ceil_natCast]
  rw [max_eq_left (Int.natCast_nonneg n)]
  rw [Int.toNat_natCast]

/-- Claim C9, counterexample: at years = 0 the zero-yield price is
face_value + coupon, not face_value + coupon times zero periods. -/
theorem c9_counterexample :
    pv_price 1 1 0 0 ≠ 1 + 1 * 1 * 0 := by
  have h : pv_price 1 1 0 (0 : ℚ) = 2 := by
    have h0 := pv_price_natCast 1 1 0 0
    norm_num at h0
    rw [h0]
    norm_num [pvAux]
  rw [h]
  norm_num

/-- Claim C9, amended: the zero-yield identity holds from one period on
(price(F, c, 0, n) = F + c F n for n at least 1); at n = 0 the price is
F (1 + c) for every yield, in particular for yields above -1. -/
theorem c9_pv_identities_amended (F c y : ℚ) (n : ℕ) :
    (1 ≤ n → pv_price F c 0 (n : ℚ) = F + c * F * n) ∧
    (-1 < y → pv_price F c y 0 = F * (1 + c)) := by
  constructor
  · intro hn
    rw [pv_price_natCast]
    have hsum : ∀ k : ℕ,
        ((List.range k).map (fun t => F * c / (1 + 0) ^ (t + 1))).sum = k * (F * c) := by
      intro k
      induction k with
      | zero => simp
      | succ j ih =>
        rw [List.range_succ, List.map_append, List.sum_append, ih]
        push_cast
        norm_num
        ring
    simp only [pvAux]
    rw [if_neg (by omega)]
    rw [hsum n]
    norm_num
    ring
  · intro _
    have h0 : pv_price F c y 0 = pvAux F c y 0 := by
      have h0 := pv_price_natCast F c y 0
      norm_num at h0
      exact h0
    rw [h0]
    simp [pvAux]
    ring

/-- Witness for the amended C9 identities at concrete inputs. -/
theorem c9_pv_identities_amended_witness :
    pv_price 2 (1/10) 0 ((3 : ℕ) : ℚ) = 2 + 1/10 * 2 * ((3 : ℕ) : ℚ) ∧
    pv_price 2 (1/10) (1/2) 0 = 2 * (1 + 1/10) :=
  ⟨(c9_pv_identities_amended 2 (1/10) (1/2) 3).1 (by norm_num),
   (c9_pv_identities_amended 2 (1/10) (1/2) 3).2 (by norm_num)⟩

/-! ## Claim C10: truthiness of the yield outputs -/

/-- Claim C10: the output assembly tests buyer_yield and Y for Python
truthiness, so a computed value of exactly 0 is reported as null, for
both buyer_expected_yield_pct and used_yield; null output hence does not
imply that the Yield Solver returned NotFound. -/
theorem c10_truthiness (F c : ℚ) (rating : String) (pa t fr : ℚ)
    (upv fs : Bool) :
    ((calcBranch F c rating t fr upv fs).buyer_yield = some 0 →
      (calculate_fraction_price F c rating pa t fr upv fs).buyer_expected_yield_pct
        = none) ∧
    ((calcBranch F c rating t fr upv fs).Y = some 0 →
      (calculate_fraction_price F c rating pa t fr upv fs).used_yield = none) := by
  constructor
  · intro h
    simp [calculate_fraction_price, h]
  · intro h
    simp [calculate_fraction_price, h]

/-- Witness for C10: a zero-coupon low-rated bond computes buyer yield 0
and reports null, and an AAA bond with coupon 0.01 and maturity 5 has
internal target yield exactly 0 and reports used_yield null. -/
theorem c10_truthiness_witness :
    ((calcBranch 100 0 "CCC" 1 100 true false).buyer_yield = some 0 ∧
      (calculate_fraction_price 100 0 "CCC" 0 1 100 true false).buyer_expected_yield_pct
        = none) ∧
    ((calcBranch 100 0.01 "AAA" 5 100 true false).Y = some 0 ∧
      (calculate_fraction_price 100 0.01 "AAA" 0 5 100 true false).used_yield = none) := by
  have h1 : (calcBranch 100 0 "CCC" 1 100 true false).buyer_yield = some 0 := by
    simp [calcBranch, HIGH_RATED, LOW_RATED]
  have h2 : (calcBranch 100 0.01 "AAA" 5 100 true false).Y = some 0 := by
    simp [calcBranch, HIGH_RATED, target_yield_for_time]
    norm_num [min_def, max_def]
  exact ⟨⟨h1, (c10_truthiness 100 0 "CCC" 0 1 100 true false).1 h1⟩,
         ⟨h2, (c10_truthiness 100 0.01 "AAA" 0 5 100 true false).2 h2⟩⟩

/-! ## Claim C4: the NotFound characterization of the Yield Solver -/

/-- Claim C4: the solver returns none exactly when f has the same strict
sign at lo and hi and, after the single widening of hi to 10.0, still
has the same strict sign at lo and 10.0; in every other case it returns
some value. -/
theorem c4_none_iff (F c P yrs lo hi eps : ℚ) (k : ℕ) :
    implied_yield_for_price F c P yrs lo hi eps k = none ↔
      (((0 < pv_price F c lo yrs - P ∧ 0 < pv_price F c hi yrs - P) ∨
        (pv_price F c lo yrs - P < 0 ∧ pv_price F c hi yrs - P < 0)) ∧
       ((0 < pv_price F c lo yrs - P ∧ 0 < pv_price F c 10.0 yrs - P) ∨
        (pv_price F c lo yrs - P < 0 ∧ pv_price F c 10.0 yrs - P < 0))) := by
  simp only [implied_yield_for_price]
  split_ifs with h1 h2
  · simp only [true_iff]
    exact ⟨mul_pos_iff.mp h1, mul_pos_iff.mp h2⟩
  · simp only [reduceCtorEq, false_iff, not_and]
    intro _ hc2
    exact h2 (mul_pos_iff.mpr hc2)
  · simp only [reduceCtorEq, false_iff]
    intro hc
    exact h1 (mul_pos_iff.mpr hc.1)

/-! ## Claim C5: the bank_fd trigger reason -/

/-- The better list of the bank_fd trigger is empty exactly when no
AAA/AA bond of the universe yields at least the fd rate. -/
lemma fd_better_isEmpty_iff (bond_universe : List Bond) (fd : ℚ) :
    ((bond_universe.filter (fun b => b.credit = "AAA" || b.credit = "AA")).filter
        (fun b => fd ≤ b.yield)).isEmpty = true ↔
      ¬ ∃ b ∈ bond_universe, (b.credit = "AAA" ∨ b.credit = "AA") ∧ fd ≤ b.yield := by
  rw [List.isEmpty_iff, List.eq_nil_iff_forall_not_mem]
  constructor
  · rintro hall ⟨b, hbU, hbc, hby⟩
    refine hall b ?_
    rw [List.mem_filter]
    refine ⟨?_, decide_eq_true hby⟩
    rw [List.mem_filter]
    exact ⟨hbU, by rcases hbc with h1 | h1 <;> simp [h1]⟩
  · intro hnex b hb
    rw [List.mem_filter] at hb
    obtain ⟨hb1, hb2⟩ := hb
    rw [List.mem_filter] at hb1
    obtain ⟨hbU, hbc⟩ := hb1
    refine hnex ⟨b, hbU, ?_, of_decide_eq_true hb2⟩
    rcases Bool.or_eq_true_iff.mp hbc with h1 | h1
    · exact Or.inl (of_decide_eq_true h1)
    · exact Or.inr (of_decide_eq_true h1)

/-- Claim C5: a bank_fd asset is assigned reason fd_replace exactly when
some AAA or AA bond of the universe yields at least its fd rate, and
fd_suggest_ladder otherwise. -/
theorem c5_fd_reason (bond_universe : List Bond) (a : Asset)
    (h : a.type = some "bank_fd") :
    triggersFor bond_universe a =
      [(a.asset_id, mvOf a,
        if ∃ b ∈ bond_universe, (b.credit = "AAA" ∨ b.credit = "AA") ∧
            a.fd_rate.getD 0 ≤ b.yield
         then "fd_replace" else "fd_suggest_ladder")] := by
  simp only [triggersFor, h]
  rw [if_neg (by simp), if_neg (by simp), if_pos trivial]
  simp only [List.nil_append]
  by_cases hx : ∃ b ∈ bond_universe, (b.credit = "AAA" ∨ b.credit = "AA") ∧
      a.fd_rate.getD 0 ≤ b.yield
  · rw [if_neg (by rw [fd_better_isEmpty_iff]; exact not_not_intro hx), if_pos hx]
  · rw [if_pos ((fd_better_isEmpty_iff bond_universe (a.fd_rate.getD 0)).mpr hx),
      if_neg hx]

/-- Witness for C5 at the demo data: the demo FD asset with fd rate 0.07
gets reason fd_suggest_ladder against the fixed bond universe, whose
AAA/AA yields are 0.055, 0.06 and 0.045. -/
theorem c5_fd_reason_witness :
    triggersFor BOND_UNIVERSE
      ⟨"FD_1", some "bank_fd", some "BankFD (7% p.a.)", some "low",
        some 20000, none, none, some 0.07⟩ =
      [("FD_1", 20000, "fd_suggest_ladder")] := by
  rw [c5_fd_reason BOND_UNIVERSE _ rfl]
  norm_num [BOND_UNIVERSE, mvOf]
  simp

/-! ## Claims C6 and C7: Risk Scorer boundary and range -/

/-- The total_value computed by compute_portfolio_risk: the sum of
market values with the Python truthiness floor of 1.0 at zero. -/
def totalOf (assets : List Asset) : ℚ :=
  if (assets.map mvOf).sum = 0 then (1.0 : ℚ) else (assets.map mvOf).sum

/-- Projection equation: the reported total_value. -/
lemma cpr_total (assets : List Asset) :
    (compute_portfolio_risk assets).2.2 = totalOf assets := rfl

/-- Projection equation: the per-asset breakdown. -/
lemma cpr_breakdown (assets : List Asset) :
    (compute_portfolio_risk assets).2.1 =
      assets.map (fun a =>
        (⟨a.asset_id, a.type, mvOf a, mvOf a / totalOf assets,
          get_asset_risk_score a,
          mvOf a / totalOf assets * get_asset_risk_score a⟩ : BreakdownEntry)) := rfl

/-- Projection equation: the overall score. -/
lemma cpr_score (assets : List Asset) :
    (compute_portfolio_risk assets).1 =
      (assets.map (fun a =>
        mvOf a / totalOf assets * get_asset_risk_score a)).sum * 100.0 := by
  simp only [compute_portfolio_risk]
  rw [List.map_map]
  rfl

/-- A list of nonnegative rationals has nonnegative sum. -/
lemma list_sum_nonneg {l : List ℚ} (h : ∀ x ∈ l, 0 ≤ x) : 0 ≤ l.sum := by
  induction l with
  | nil => simp
  | cons x xs ih =>
    rw [List.sum_cons]
    have hx := h x (List.mem_cons_self x xs)
    have hxs := ih (fun z hz => h z (List.mem_cons_of_mem x hz))
    linarith

/-- A list of nonnegative rationals summing to zero is all zeros. -/
lemma list_all_zero_of_sum_zero {l : List ℚ} (h : ∀ x ∈ l, 0 ≤ x)
    (hs : l.sum = 0) : ∀ x ∈ l, x = 0 := by
  induction l with
  | nil => simp
  | cons x xs ih =>
    rw [List.sum_cons] at hs
    have hx := h x (List.mem_cons_self x xs)
    have hxs := list_sum_nonneg (fun z hz => h z (List.mem_cons_of_mem x hz))
    have hx0 : x = 0 := by linarith
    have hs0 : xs.sum = 0 := by linarith
    intro z hz
    rcases List.mem_cons.mp hz with rfl | hz2
    · exact hx0
    · exact ih (fun w hw => h w (List.mem_cons_of_mem x hw)) hs0 z hz2

/-- Claim C6: when the market values sum to zero (the empty portfolio
included), the Risk Scorer returns score 0, reports total_value as the
1.0 floor, and every breakdown entry has zero allocation and zero risk
contribution. -/
theorem c6_zero_portfolio (assets : List Asset)
    (hnn : ∀ a ∈ assets, 0 ≤ mvOf a)
    (hsum : (assets.map mvOf).sum = 0) :
    (compute_portfolio_risk assets).1 = 0 ∧
    (compute_portfolio_risk assets).2.2 = 1 ∧
    ∀ e ∈ (compute_portfolio_risk assets).2.1,
      e.alloc_pct = 0 ∧ e.risk_contribution = 0 := by
  have hall : ∀ a ∈ assets, mvOf a = 0 := by
    intro a ha
    refine list_all_zero_of_sum_zero ?_ hsum (mvOf a) (List.mem_map_of_mem mvOf ha)
    intro x hx
    obtain ⟨w, hw, rfl⟩ := List.mem_map.mp hx
    exact hnn w hw
  refine ⟨?_, ?_, ?_⟩
  · rw [cpr_score]
    have hz : ∀ e ∈ assets.map (fun a =>
        mvOf a / totalOf assets * get_asset_risk_score a), e = 0 := by
      intro e he
      obtain ⟨a, ha, rfl⟩ := List.mem_map.mp he
      rw [hall a ha]
      norm_num
    rw [List.sum_eq_zero hz]
    norm_num
  · rw [cpr_total]
    unfold totalOf
    rw [if_pos hsum]
    norm_num
  · intro e he
    rw [cpr_breakdown] at he
    obtain ⟨a, ha, rfl⟩ := List.mem_map.mp he
    constructor
    · show mvOf a / totalOf assets = 0
      rw [hall a ha]
      norm_num
    · show mvOf a / totalOf assets * get_asset_risk_score a = 0
      rw [hall a ha]
      norm_num

/-- Witness for C6 at the empty portfolio. -/
theorem c6_zero_portfolio_witness :
    (compute_portfolio_risk []).1 = 0 ∧
    (compute_portfolio_risk []).2.2 = 1 ∧
    ∀ e ∈ (compute_portfolio_risk []).2.1,
      e.alloc_pct = 0 ∧ e.risk_contribution = 0 :=
  c6_zero_portfolio [] (by simp) (by simp)

/-- Bounds for the value looked up in RISK_MAP, default 0.5. -/
lemma risk_base_bounds : ∀ rl : Option String,
    0 ≤ (rl.bind (fun l => RISK_MAP.lookup l)).getD 0.5 ∧
      (rl.bind (fun l => RISK_MAP.lookup l)).getD 0.5 ≤ 1
  | none => by norm_num
  | some l => by
    show 0 ≤ (RISK_MAP.lookup l).getD 0.5 ∧ (RISK_MAP.lookup l).getD 0.5 ≤ 1
    rcases hv : RISK_MAP.lookup l with _ | v
    · norm_num
    · rw [Option.getD_some]
      simp only [RISK_MAP, List.lookup_cons, List.lookup_nil] at hv
      repeat' split at hv
      all_goals first
        | (injection hv with hv2; rw [← hv2]; norm_num)
        | (cases hv)

/-- The per-asset risk score lies in the unit interval. -/
lemma get_asset_risk_score_bounds (a : Asset) :
    0 ≤ get_asset_risk_score a ∧ get_asset_risk_score a ≤ 1 := by
  obtain ⟨h1, h2⟩ := risk_base_bounds a.risk_label
  norm_num at h1 h2
  simp only [get_asset_risk_score]
  split_ifs <;> constructor
  all_goals first
    | linarith
    | (refine le_min (by norm_num) (by linarith))
    | (refine le_trans (min_le_left _ _) (by norm_num))

/-- Claim C7: with nonnegative market values the overall risk score lies
in the closed interval from 0 to 100. -/
theorem c7_risk_score_range (assets : List Asset)
    (hnn : ∀ a ∈ assets, 0 ≤ mvOf a) :
    0 ≤ (compute_portfolio_risk assets).1 ∧
    (compute_portfolio_risk assets).1 ≤ 100 := by
  have hs : 0 ≤ (assets.map mvOf).sum := by
    refine list_sum_nonneg ?_
    intro x hx
    obtain ⟨w, hw, rfl⟩ := List.mem_map.mp hx
    exact hnn w hw
  have hT : 0 < totalOf assets := by
    unfold totalOf
    split_ifs with h0
    · norm_num
    · rcases lt_or_eq_of_le hs with h1 | h1
      · exact h1
      · exact absurd h1.symm h0
  have hterm : ∀ a ∈ assets,
      0 ≤ mvOf a / totalOf assets * get_asset_risk_score a ∧
      mvOf a / totalOf assets * get_asset_risk_score a ≤ mvOf a / totalOf assets := by
    intro a ha
    obtain ⟨h1, h2⟩ := get_asset_risk_score_bounds a
    have hma : 0 ≤ mvOf a / totalOf assets := div_nonneg (hnn a ha) hT.le
    refine ⟨mul_nonneg hma h1, ?_⟩
    calc mvOf a / totalOf assets * get_asset_risk_score a
        ≤ mvOf a / totalOf assets * 1 := mul_le_mul_of_nonneg_left h2 hma
      _ = mvOf a / totalOf assets := mul_one _
  have hws0 : 0 ≤ (assets.map (fun a =>
      mvOf a / totalOf assets * get_asset_risk_score a)).sum := by
    refine list_sum_nonneg ?_
    intro x hx
    obtain ⟨w, hw, rfl⟩ := List.mem_map.mp hx
    exact (hterm w hw).1
  have hws1 : (assets.map (fun a =>
      mvOf a / totalOf assets * get_asset_risk_score a)).sum ≤
      (assets.map (fun a => mvOf a / totalOf assets)).sum :=
    List.sum_le_sum (fun a ha => (hterm a ha).2)
  have halloc : (assets.map (fun a => mvOf a / totalOf assets)).sum =
      (assets.map mvOf).sum / totalOf assets := by
    simp only [div_eq_mul_inv]
    rw [List.sum_map_mul_right]
  have hfrac : (assets.map mvOf).sum / totalOf assets ≤ 1 := by
    unfold totalOf
    split_ifs with h0
    · rw [h0]
      norm_num
    · rw [div_self h0]
  have hle : (assets.map (fun a =>
      mvOf a / totalOf assets * get_asset_risk_score a)).sum ≤ 1 := by
    calc (assets.map (fun a => mvOf a / totalOf assets * get_asset_risk_score a)).sum
        ≤ (assets.map (fun a => mvOf a / totalOf assets)).sum := hws1
      _ = (assets.map mvOf).sum / totalOf assets := halloc
      _ ≤ 1 := hfrac
  rw [cpr_score]
  constructor
  · positivity
  · nlinarith

/-- Witness for C7 at the demo portfolio. -/
theorem c7_risk_score_range_witness :
    0 ≤ (compute_portfolio_risk demo_portfolio).1 ∧
    (compute_portfolio_risk demo_portfolio).1 ≤ 100 := by
  refine c7_risk_score_range demo_portfolio ?_
  intro a ha
  simp only [demo_portfolio, List.mem_cons, List.not_mem_nil, or_false] at ha
  rcases ha with rfl | rfl | rfl | rfl | rfl | rfl <;> norm_num [mvOf]

/-! ## Claim C8: Bond Selector determinism and maximality -/

/-- Inserting never produces an empty list, and the new head is the
larger-keyed of the inserted element and the old head. -/
lemma insertDesc_head (key : Bond → ℚ) (x : Bond) (s : List Bond) (b : Bond)
    (hs : s.head? = some b) :
    (insertDesc key x s).head? = some (if key b < key x then x else b) := by
  cases s with
  | nil => cases hs
  | cons y ys =>
    rw [List.head?_cons, Option.some_inj] at hs
    subst hs
    rw [insertDesc]
    split_ifs with h
    · rw [List.head?_cons]
    · rw [List.head?_cons]

/-- The head of the insertion fold is the running first maximum. -/
lemma foldl_insertDesc_head (key : Bond → ℚ) :
    ∀ (xs s : List Bond) (b : Bond), s.head? = some b →
      (xs.foldl (fun acc x => insertDesc key x acc) s).head? =
        some (xs.foldl (fun best x => if key best < key x then x else best) b) := by
  intro xs
  induction xs with
  | nil =>
    intro s b hs
    simpa using hs
  | cons x xs ih =>
    intro s b hs
    rw [List.foldl_cons, List.foldl_cons]
    exact ih (insertDesc key x s) (if key b < key x then x else b)
      (insertDesc_head key x s b hs)

/-- The head of the stable descending sort is the first maximal element. -/
lemma sortDesc_head (key : Bond → ℚ) (x : Bond) (xs : List Bond) :
    (sortDesc key (x :: xs)).head? = firstMaxBy key (x :: xs) := by
  rw [sortDesc, List.foldl_cons, firstMaxBy]
  exact foldl_insertDesc_head key xs (insertDesc key x []) x rfl

/-- The running first maximum is an element of the list. -/
lemma foldl_pick_mem (key : Bond → ℚ) :
    ∀ (xs : List Bond) (x : Bond),
      xs.foldl (fun best b => if key best < key b then b else best) x ∈ x :: xs := by
  intro xs
  induction xs with
  | nil => intro x; simp
  | cons y ys ih =>
    intro x
    rw [List.foldl_cons]
    have h := ih (if key x < key y then y else x)
    rcases List.mem_cons.mp h with h1 | h1
    · rw [h1]
      split_ifs <;> simp
    · simp [h1]

/-- The running first maximum majorizes every element of the list. -/
lemma foldl_pick_le (key : Bond → ℚ) :
    ∀ (xs : List Bond) (x : Bond) (b : Bond), b ∈ x :: xs →
      key b ≤ key (xs.foldl (fun best c => if key best < key c then c else best) x) := by
  intro xs
  induction xs with
  | nil =>
    intro x b hb
    rcases List.mem_cons.mp hb with rfl | h1
    · exact le_refl _
    · cases h1
  | cons y ys ih =>
    intro x b hb
    rw [List.foldl_cons]
    have hstep : key x ≤ key (if key x < key y then y else x) ∧
        key y ≤ key (if key x < key y then y else x) := by
      split_ifs with h
      · exact ⟨le_of_lt h, le_refl _⟩
      · exact ⟨le_refl _, le_of_not_lt h⟩
    rcases List.mem_cons.mp hb with rfl | h1
    · exact le_trans hstep.1
        (ih (if key b < key y then y else b) _
          (List.mem_cons_self _ _))
    · rcases List.mem_cons.mp h1 with rfl | h2
      · exact le_trans hstep.2
          (ih (if key x < key b then b else x) _
            (List.mem_cons_self _ _))
      · exact ih (if key x < key y then y else x) b (List.mem_cons_of_mem _ h2)

/-- Claim C8: on a nonempty universe the selector returns some candidate;
it is the first maximal-utility element of the credit-filtered list (with
fallback to the full universe when the filter is empty), it belongs to
that list, and its utility majorizes every candidate of that list.
Determinism is inherent: the selector is a pure function. -/
theorem c8_selector_spec (bond_universe : List Bond) (safety : String)
    (py : Bool) (td : ℚ) (hne : bond_universe ≠ []) :
    ∃ r, select_bond_candidate bond_universe safety py td = some r ∧
      firstMaxBy (utility py td (yMinOf (dfOf bond_universe safety))
        (yMaxOf (dfOf bond_universe safety))) (dfOf bond_universe safety) = some r ∧
      r ∈ dfOf bond_universe safety ∧
      ∀ b ∈ dfOf bond_universe safety,
        utility py td (yMinOf (dfOf bond_universe safety))
            (yMaxOf (dfOf bond_universe safety)) b ≤
          utility py td (yMinOf (dfOf bond_universe safety))
            (yMaxOf (dfOf bond_universe safety)) r := by
  have hdf : dfOf bond_universe safety ≠ [] := by
    simp only [dfOf]
    split_ifs with h0
    · exact hne
    · intro hc
      rw [hc] at h0
      simp at h0
  rcases hd : dfOf bond_universe safety with _ | ⟨b0, rest⟩
  · exact absurd hd hdf
  refine ⟨rest.foldl (fun best c =>
      if utility py td (yMinOf (b0 :: rest)) (yMaxOf (b0 :: rest)) best <
          utility py td (yMinOf (b0 :: rest)) (yMaxOf (b0 :: rest)) c
        then c else best) b0, ?_, ?_, ?_, ?_⟩
  · simp only [select_bond_candidate, hd]
    rw [sortDesc_head]
    rw [firstMaxBy]
  · rw [firstMaxBy]
  · exact foldl_pick_mem _ rest b0
  · intro b hb
    exact foldl_pick_le _ rest b0 b hb

/-- Witness for C8 at the fixed demo universe with the safe profile. -/
theorem c8_selector_spec_witness :
    ∃ r, select_bond_candidate BOND_UNIVERSE "safe" true 3 = some r ∧
      firstMaxBy (utility true 3 (yMinOf (dfOf BOND_UNIVERSE "safe"))
        (yMaxOf (dfOf BOND_UNIVERSE "safe"))) (dfOf BOND_UNIVERSE "safe") = some r ∧
      r ∈ dfOf BOND_UNIVERSE "safe" ∧
      ∀ b ∈ dfOf BOND_UNIVERSE "safe",
        utility true 3 (yMinOf (dfOf BOND_UNIVERSE "safe"))
            (yMaxOf (dfOf BOND_UNIVERSE "safe")) b ≤
          utility true 3 (yMinOf (dfOf BOND_UNIVERSE "safe"))
            (yMaxOf (dfOf BOND_UNIVERSE "safe")) r :=
  c8_selector_spec BOND_UNIVERSE "safe" true 3 (by simp [BOND_UNIVERSE])

/-! ## Claim C3: Yield Solver round trip -/

/-- One unfolding step of the bisection loop. -/
lemma bisectLoop_step (F c P yrs eps a b fa : ℚ) (fuel : ℕ) :
    bisectLoop F c P yrs eps (fuel + 1) a b fa =
      (if |pv_price F c (0.5 * (a + b)) yrs - P| < eps then 0.5 * (a + b)
       else if fa * (pv_price F c (0.5 * (a + b)) yrs - P) ≤ 0 then
         bisectLoop F c P yrs eps fuel a (0.5 * (a + b)) fa
       else
         bisectLoop F c P yrs eps fuel (0.5 * (a + b)) b
           (pv_price F c (0.5 * (a + b)) yrs - P)) := rfl

/-- Claim C3, counterexample: with face value 1e-8, coupon 0.5, true
yield 0.9 and one year, the very first midpoint already satisfies the
absolute price tolerance (the cash flows are tiny), so the solver stops
near 0.5, far from the true yield 0.9. -/
theorem c3_counterexample :
    implied_yield_for_price 1e-8 0.5 (pv_price 1e-8 0.5 0.9 1) 1 1e-8 1.0 1e-8 200 =
      some (100000001/200000000) ∧
    (1/10000 : ℚ) < |(100000001/200000000 : ℚ) - 0.9| := by
  constructor
  · norm_num
    have hP : pv_price (1/100000000) (1/2) (9/10) 1 = 3/380000000 := by
      have h := pv_price_natCast (1/100000000) (1/2) (9/10) 1
      norm_num at h
      rw [h]
      norm_num [pvAux, List.range_succ]
    have hlo : pv_price (1/100000000) (1/2) (1/100000000) 1 = 3/200000002 := by
      have h := pv_price_natCast (1/100000000) (1/2) (1/100000000) 1
      norm_num at h
      rw [h]
      norm_num [pvAux, List.range_succ]
    have hhi : pv_price (1/100000000) (1/2) 1 1 = 3/400000000 := by
      have h := pv_price_natCast (1/100000000) (1/2) 1 1
      norm_num at h
      rw [h]
      norm_num [pvAux, List.range_succ]
    have hm : pv_price (1/100000000) (1/2) (0.5 * (1/100000000 + 1)) 1 = 3/300000001 := by
      have h2 : (0.5 * (1/100000000 + 1) : ℚ) = 100000001/200000000 := by norm_num
      rw [h2]
      have h := pv_price_natCast (1/100000000) (1/2) (100000001/200000000) 1
      norm_num at h
      rw [h]
      norm_num [pvAux, List.range_succ]
    rw [hP]
    simp only [implied_yield_for_price]
    rw [hlo, hhi]
    rw [if_neg (by norm_num)]
    rw [show (200:ℕ) = 199 + 1 from rfl]
    rw [bisectLoop_step]
    rw [hm]
    rw [if_pos (show |(3:ℚ)/300000001 - 3/380000000| < 1/100000000 by
      rw [abs_of_pos (by norm_num)]
      norm_num)]
    norm_num
  · rw [abs_of_neg (show ((100000001:ℚ)/200000000 - 0.9) < 0 by norm_num)]
    norm_num


/-- The PV is antitone in the yield on nonnegative yields. -/
lemma pvAux_anti (F c : ℚ) (hF : 0 ≤ F) (hc : 0 ≤ c) (n : ℕ)
    {x1 x2 : ℚ} (h0 : 0 ≤ x1) (h12 : x1 ≤ x2) :
    pvAux F c x2 n ≤ pvAux F c x1 n := by
  simp only [pvAux]
  by_cases hn : n = 0
  · simp [hn]
  · rw [if_neg hn, if_neg hn]
    have h1x : (0:ℚ) < 1 + x1 := by linarith
    have h2x : (0:ℚ) < 1 + x2 := by linarith
    have hpow : ∀ k : ℕ, (1 + x1) ^ k ≤ (1 + x2) ^ k := by
      intro k
      exact pow_le_pow_left h1x.le (by linarith) k
    have hterm : ∀ k : ℕ, F * c / (1 + x2) ^ k ≤ F * c / (1 + x1) ^ k := by
      intro k
      exact div_le_div_of_nonneg_left (mul_nonneg hF hc) (pow_pos h1x k) (hpow k)
    have hsum : ((List.range n).map (fun t => F * c / (1 + x2) ^ (t + 1))).sum ≤
        ((List.range n).map (fun t => F * c / (1 + x1) ^ (t + 1))).sum := by
      refine List.sum_le_sum ?_
      intro i _
      exact hterm (i + 1)
    have hface : F / (1 + x2) ^ n ≤ F / (1 + x1) ^ n :=
      div_le_div_of_nonneg_left hF (pow_pos h1x n) (hpow n)
    linarith

/-- Quantitative slope bound: on yields in [0, 10] the PV of a bond
with at least one period falls at least c F / 121 per unit of yield
(the first coupon term alone accounts for it). -/
lemma pvAux_slope (F c : ℚ) (hF : 0 < F) (hc : 0 < c) {n : ℕ} (hn : n ≠ 0)
    {x1 x2 : ℚ} (h0 : 0 ≤ x1) (h12 : x1 ≤ x2) (h10 : x2 ≤ 10) :
    c * F * (x2 - x1) ≤ 121 * (pvAux F c x1 n - pvAux F c x2 n) := by
  obtain ⟨m, rfl⟩ : ∃ m, n = m + 1 := ⟨n - 1, by omega⟩
  have h1x : (0:ℚ) < 1 + x1 := by linarith
  have h2x : (0:ℚ) < 1 + x2 := by linarith
  simp only [pvAux, if_neg (Nat.succ_ne_zero m), List.range_succ_eq_map,
    List.map_cons, List.sum_cons, List.map_map]
  have hpow : ∀ k : ℕ, (1 + x1) ^ k ≤ (1 + x2) ^ k := by
    intro k
    exact pow_le_pow_left h1x.le (by linarith) k
  have hrest : ((List.range m).map ((fun t => F * c / (1 + x2) ^ (t + 1)) ∘ Nat.succ)).sum ≤
      ((List.range m).map ((fun t => F * c / (1 + x1) ^ (t + 1)) ∘ Nat.succ)).sum := by
    refine List.sum_le_sum ?_
    intro i _
    simp only [Function.comp]
    exact div_le_div_of_nonneg_left (mul_nonneg hF.le hc.le) (pow_pos h1x _) (hpow _)
  have hface : F / (1 + x2) ^ (m + 1) ≤ F / (1 + x1) ^ (m + 1) :=
    div_le_div_of_nonneg_left hF.le (pow_pos h1x _) (hpow _)
  have hfirst : F * c / (1 + x1) ^ (0 + 1) - F * c / (1 + x2) ^ (0 + 1) =
      F * c * (x2 - x1) / ((1 + x1) * (1 + x2)) := by
    field_simp
    ring
  have hD : (1 + x1) * (1 + x2) ≤ 121 := by nlinarith
  have hD0 : (0:ℚ) < (1 + x1) * (1 + x2) := mul_pos h1x h2x
  have hnum : 0 ≤ F * c * (x2 - x1) :=
    mul_nonneg (mul_nonneg hF.le hc.le) (by linarith)
  have hkey : F * c * (x2 - x1) / 121 ≤ F * c * (x2 - x1) / ((1 + x1) * (1 + x2)) :=
    div_le_div_of_nonneg_left hnum hD0 hD
  have h121 : (121:ℚ) * (F * c * (x2 - x1) / 121) = F * c * (x2 - x1) := by ring
  nlinarith [hrest, hface, hfirst, hkey]

/-- The PV is strictly antitone in the yield on [0, 10]. -/
lemma pvAux_lt_of_lt (F c : ℚ) (hF : 0 < F) (hc : 0 < c) {n : ℕ} (hn : n ≠ 0)
    {x1 x2 : ℚ} (h0 : 0 ≤ x1) (h12 : x1 < x2) (h10 : x2 ≤ 10) :
    pvAux F c x2 n < pvAux F c x1 n := by
  have hs := pvAux_slope F c hF hc hn h0 h12.le h10
  have hpos : 0 < c * F * (x2 - x1) :=
    mul_pos (mul_pos hc hF) (by linarith)
  linarith


/-- Invariant of the bisection loop run against a target price that is
the exact PV at yield y inside the bracket: the result is either a point
of the bracket whose PV is within eps of the target (early termination),
or the final midpoint, within the halved bracket width of y. -/
lemma bisectLoop_approx (F c y : ℚ) (hF : 0 < F) (hc : 0 < c) (n : ℕ) (hn : n ≠ 0)
    (hy0 : 0 ≤ y) (hy10 : y ≤ 10) (eps : ℚ) :
    ∀ (fuel : ℕ) (a b fa : ℚ), 0 ≤ a → a ≤ b → b ≤ 10 →
      fa = pvAux F c a n - pvAux F c y n →
      pvAux F c y n ≤ pvAux F c a n →
      pvAux F c b n ≤ pvAux F c y n →
      ((a ≤ bisectLoop F c (pvAux F c y n) (n:ℚ) eps fuel a b fa ∧
        bisectLoop F c (pvAux F c y n) (n:ℚ) eps fuel a b fa ≤ b ∧
        |pvAux F c (bisectLoop F c (pvAux F c y n) (n:ℚ) eps fuel a b fa) n -
          pvAux F c y n| < eps) ∨
       |bisectLoop F c (pvAux F c y n) (n:ℚ) eps fuel a b fa - y| ≤ (b - a) / 2 ^ fuel) := by
  intro fuel
  induction fuel with
  | zero =>
    intro a b fa h0 hab hb10 hfa hPa hPb
    right
    have hay : a ≤ y := by
      by_contra hcon
      push_neg at hcon
      have := pvAux_lt_of_lt F c hF hc hn hy0 hcon (by linarith)
      linarith
    have hyb : y ≤ b := by
      by_contra hcon
      push_neg at hcon
      have := pvAux_lt_of_lt F c hF hc hn (by linarith) hcon hy10
      linarith
    have hloop : bisectLoop F c (pvAux F c y n) (n:ℚ) eps 0 a b fa = 0.5 * (a + b) := rfl
    rw [hloop, pow_zero, div_one, abs_le]
    constructor <;> linarith
  | succ fuel ih =>
    intro a b fa h0 hab hb10 hfa hPa hPb
    have hay : a ≤ y := by
      by_contra hcon
      push_neg at hcon
      have := pvAux_lt_of_lt F c hF hc hn hy0 hcon (by linarith)
      linarith
    have hyb : y ≤ b := by
      by_contra hcon
      push_neg at hcon
      have := pvAux_lt_of_lt F c hF hc hn (by linarith) hcon hy10
      linarith
    rw [bisectLoop_step, pv_price_natCast]
    have ham : a ≤ 0.5 * (a + b) := by linarith
    have hmb : 0.5 * (a + b) ≤ b := by linarith
    by_cases hstop : |pvAux F c (0.5 * (a + b)) n - pvAux F c y n| < eps
    · rw [if_pos hstop]
      left
      exact ⟨ham, hmb, hstop⟩
    · rw [if_neg hstop]
      by_cases hsign : fa * (pvAux F c (0.5 * (a + b)) n - pvAux F c y n) ≤ 0
      · rw [if_pos hsign]
        have hPm : pvAux F c (0.5 * (a + b)) n ≤ pvAux F c y n := by
          rcases eq_or_lt_of_le hPa with heq | hlt
          · have hanti := pvAux_anti F c hF.le hc.le n h0 ham
            linarith
          · have hfa0 : 0 < fa := by rw [hfa]; linarith
            by_contra hcon
            push_neg at hcon
            have : 0 < fa * (pvAux F c (0.5 * (a + b)) n - pvAux F c y n) :=
              mul_pos hfa0 (by linarith)
            linarith
        have hres := ih a (0.5 * (a + b)) fa h0 ham (by linarith) hfa hPa hPm
        rcases hres with ⟨h1, h2, h3⟩ | hclose
        · left
          exact ⟨h1, by linarith, h3⟩
        · right
          have hhalf : (0.5 * (a + b) - a) = (b - a) / 2 := by ring
          calc |bisectLoop F c (pvAux F c y n) (n:ℚ) eps fuel a (0.5 * (a + b)) fa - y|
              ≤ (0.5 * (a + b) - a) / 2 ^ fuel := hclose
            _ = (b - a) / 2 ^ (fuel + 1) := by
                rw [hhalf, pow_succ]
                ring
      · rw [if_neg hsign]
        push_neg at hsign
        have hfa0 : 0 ≤ fa := by rw [hfa]; linarith
        have hfm : 0 < pvAux F c (0.5 * (a + b)) n - pvAux F c y n := by
          rcases mul_pos_iff.mp hsign with ⟨_, h2⟩ | ⟨h1, _⟩
          · exact h2
          · linarith
        have hPm : pvAux F c y n ≤ pvAux F c (0.5 * (a + b)) n := by linarith
        have hres := ih (0.5 * (a + b)) b (pvAux F c (0.5 * (a + b)) n - pvAux F c y n)
          (by linarith) hmb hb10 rfl hPm hPb
        rcases hres with ⟨h1, h2, h3⟩ | hclose
        · left
          exact ⟨by linarith, h2, h3⟩
        · right
          have hhalf : (b - 0.5 * (a + b)) = (b - a) / 2 := by ring
          calc |bisectLoop F c (pvAux F c y n) (n:ℚ) eps fuel (0.5 * (a + b)) b
                (pvAux F c (0.5 * (a + b)) n - pvAux F c y n) - y|
              ≤ (b - 0.5 * (a + b)) / 2 ^ fuel := hclose
            _ = (b - a) / 2 ^ (fuel + 1) := by
                rw [hhalf, pow_succ]
                ring


/-- Claim C3, amended: the round trip holds once the true yield is at
least the solver's default lo = 1e-8 (below it the root can fall outside
the bracket) and the annual coupon amount c times F is at least 1/80 (for
tiny cash flows the eps price tolerance stops the solver far from the
true yield, as the counterexample shows): under the original bounds
F > 0, 0 < c < 1, y < 1, 1 <= n <= 30, the solver returns a value within
1e-4 of y. -/
theorem c3_round_trip_amended (F c y : ℚ) (n : ℕ)
    (hF : 0 < F) (hc0 : 0 < c) (hc1 : c < 1)
    (hy0 : 1e-8 ≤ y) (hy1 : y < 1) (hcF : 1/80 ≤ c * F)
    (hn1 : 1 ≤ n) (hn30 : n ≤ 30) :
    ∃ r, implied_yield_for_price F c (pv_price F c y (n : ℚ)) (n : ℚ)
        1e-8 1 1e-8 200 = some r ∧ |r - y| < 1/10000 := by
  have hn : n ≠ 0 := by omega
  have hy0q : (0:ℚ) ≤ y := by
    have : (0:ℚ) ≤ 1e-8 := by norm_num
    linarith
  have hy10 : y ≤ 10 := by linarith
  have hPa : pvAux F c y n ≤ pvAux F c 1e-8 n :=
    pvAux_anti F c hF.le hc0.le n (by norm_num) hy0
  have hPb : pvAux F c 1 n ≤ pvAux F c y n :=
    pvAux_anti F c hF.le hc0.le n hy0q hy1.le
  have hiy : implied_yield_for_price F c (pv_price F c y (n : ℚ)) (n : ℚ)
      1e-8 1 1e-8 200 =
      some (bisectLoop F c (pvAux F c y n) (n:ℚ) 1e-8 200 1e-8 1
        (pvAux F c 1e-8 n - pvAux F c y n)) := by
    simp only [implied_yield_for_price]
    rw [pv_price_natCast F c y n, pv_price_natCast F c 1e-8 n,
      pv_price_natCast F c 1 n]
    rw [if_neg (by
      push_neg
      exact mul_nonpos_iff.mpr (Or.inl ⟨by linarith, by linarith⟩))]
  refine ⟨_, hiy, ?_⟩
  have hres := bisectLoop_approx F c y hF hc0 n hn hy0q hy10 1e-8 200
    1e-8 1 (pvAux F c 1e-8 n - pvAux F c y n) (by norm_num) (by norm_num)
    (by norm_num) rfl hPa hPb
  rcases hres with ⟨h1, h2, h3⟩ | hclose
  · set r := bisectLoop F c (pvAux F c y n) (n:ℚ) 1e-8 200 1e-8 1
      (pvAux F c 1e-8 n - pvAux F c y n) with hrdef
    have hr0 : (0:ℚ) ≤ r := by
      have : (0:ℚ) ≤ 1e-8 := by norm_num
      linarith
    have hr10 : r ≤ 10 := by linarith
    rcases le_total r y with hry | hyr
    · have hs := pvAux_slope F c hF hc0 hn hr0 hry hy10
      have habs : pvAux F c r n - pvAux F c y n ≤
          |pvAux F c r n - pvAux F c y n| := le_abs_self _
      have hmul : 1/80 * (y - r) ≤ c * F * (y - r) :=
        mul_le_mul_of_nonneg_right hcF (by linarith)
      rw [abs_lt]
      constructor <;> nlinarith
    · have hs := pvAux_slope F c hF hc0 hn hy0q hyr hr10
      have habs : pvAux F c y n - pvAux F c r n ≤
          |pvAux F c r n - pvAux F c y n| := by
        rw [abs_sub_comm]
        exact le_abs_self _
      have hmul : 1/80 * (r - y) ≤ c * F * (r - y) :=
        mul_le_mul_of_nonneg_right hcF (by linarith)
      rw [abs_lt]
      constructor <;> nlinarith
  · have hstep : ((1:ℚ) - 1e-8) / 2 ^ 200 < 1/10000 := by norm_num
    calc |bisectLoop F c (pvAux F c y n) (n:ℚ) 1e-8 200 1e-8 1
          (pvAux F c 1e-8 n - pvAux F c y n) - y|
        ≤ ((1:ℚ) - 1e-8) / 2 ^ 200 := hclose
      _ < 1/10000 := hstep


/-- Witness for the amended C3 round trip at concrete inputs. -/
theorem c3_round_trip_amended_witness :
    ∃ r, implied_yield_for_price 1 (1/2) (pv_price 1 (1/2) (1/2) ((1:ℕ) : ℚ))
        ((1:ℕ) : ℚ) 1e-8 1 1e-8 200 = some r ∧ |r - 1/2| < 1/10000 :=
  c3_round_trip_amended 1 (1/2) (1/2) 1 (by norm_num) (by norm_num) (by norm_num)
    (by norm_num) (by norm_num) (by norm_num) (by norm_num) (by norm_num)

end BondMarket
